import Mathlib

/-!
Verification of the real-time synchronization core of the dogfight-raycast
multiplayer demo: the binary wire codec, the combat validator, the
connection registry lifecycle, the per-connection input-sequence filter and
the client-side reconciliation step, each translated from the JavaScript and
TypeScript sources into executable Lean definitions.
-/

namespace Dogfight

/-! ### Big-endian byte readers and writers

These model Buffer.writeUInt16BE / writeUInt32BE / writeFloatBE
(src/server/network/BinaryProtocol.js) and DataView.getUint16 / getUint32 /
getFloat32 (src/client/network/NetworkManager.ts).  A float32 field is
modelled by its 32-bit IEEE-754 pattern, a natural number below 2^32:
writeFloatBE stores the four bytes of that pattern and getFloat32 reads the
identical pattern back, so a float field round-trips exactly iff its 32-bit
pattern does.  A buffer is a list of bytes. -/

def writeU16 (n : Nat) : List Nat := [n / 256 % 256, n % 256]

def writeU32 (n : Nat) : List Nat :=
  [n / 16777216 % 256, n / 65536 % 256, n / 256 % 256, n % 256]

def readU8 : List Nat → Option (Nat × List Nat)
  | [] => none
  | b :: rest => some (b, rest)

def readU16 : List Nat → Option (Nat × List Nat)
  | b0 :: b1 :: rest => some (b0 * 256 + b1, rest)
  | _ => none

def readU32 : List Nat → Option (Nat × List Nat)
  | b0 :: b1 :: b2 :: b3 :: rest =>
      some (((b0 * 256 + b1) * 256 + b2) * 256 + b3, rest)
  | _ => none

/-! ### Input-state bitmask codec (src/server/network/BinaryProtocol.js)

encodeInputState packs the six directional flags into one u32; the comment
in the source says roll is handled separately as a float, and
decodeInputState accordingly returns roll 0. -/

/-- Decoded input state: six directional flags plus a signed roll value. -/
structure InputState where
  forward : Bool
  backward : Bool
  left : Bool
  right : Bool
  up : Bool
  down : Bool
  roll : Int
deriving DecidableEq

/-- BinaryProtocol.encodeInputState: sequential bitwise ors of the six flag
bits; roll is not written. -/
def encodeInputState (s : InputState) : Nat :=
  let e0 : Nat := 0
  let e1 := if s.forward then e0 ||| 1 else e0
  let e2 := if s.backward then e1 ||| 2 else e1
  let e3 := if s.left then e2 ||| 4 else e2
  let e4 := if s.right then e3 ||| 8 else e3
  let e5 := if s.up then e4 ||| 16 else e4
  if s.down then e5 ||| 32 else e5

/-- BinaryProtocol.decodeInputState: tests the six flag bits and returns
roll 0 (the source comment marks roll as needing separate handling). -/
def decodeInputState (n : Nat) : InputState where
  forward := n &&& 1 != 0
  backward := n &&& 2 != 0
  left := n &&& 4 != 0
  right := n &&& 8 != 0
  up := n &&& 16 != 0
  down := n &&& 32 != 0
  roll := 0

/-! ### The per-tick state-update packet -/

/-- One entity record of the STATE_UPDATE packet: position, rotation and
velocity hold 32-bit float patterns; the input state is structured. -/
structure NetPlayerState where
  position : Nat × Nat × Nat
  rotation : Nat × Nat × Nat × Nat
  velocity : Nat × Nat × Nat
  inputState : InputState
deriving DecidableEq

/-- The 46-byte per-entity record written by createStateUpdateBuffer:
identity (u16), position (3 float32), rotation (4 float32), velocity
(3 float32), encoded input bitmask (u32). -/
def encodePlayerRecord (id : Nat) (p : NetPlayerState) : List Nat :=
  writeU16 id ++
  writeU32 p.position.1 ++ writeU32 p.position.2.1 ++ writeU32 p.position.2.2 ++
  writeU32 p.rotation.1 ++ writeU32 p.rotation.2.1 ++
  writeU32 p.rotation.2.2.1 ++ writeU32 p.rotation.2.2.2 ++
  writeU32 p.velocity.1 ++ writeU32 p.velocity.2.1 ++ writeU32 p.velocity.2.2 ++
  writeU32 (encodeInputState p.inputState)

/-- BinaryProtocol.createStateUpdateBuffer: an 8-byte header (sequence u16
written as 0, packet type 0x01, server timestamp written as
Date.now() % 0xFFFFFFFF, flags 0) followed by one 46-byte record per player
in map order.  The input parameter now stands for Date.now(). -/
def createStateUpdateBuffer (now : Nat) (players : List (Nat × NetPlayerState)) :
    List Nat :=
  writeU16 0 ++ [1] ++ writeU32 (now % 4294967295) ++ [0] ++
    (players.map (fun e => encodePlayerRecord e.1 e.2)).flatten

/-- Reads the u16 sequence field at offset 0 of a packet header. -/
def headerSequence (b : List Nat) : Option Nat :=
  (readU16 b).map Prod.fst

/-- Reads the u32 serverTimestamp field at offset 3 of a packet header. -/
def headerTimestamp (b : List Nat) : Option Nat :=
  match readU16 b with
  | none => none
  | some (_, b1) =>
    match readU8 b1 with
    | none => none
    | some (_, b2) => (readU32 b2).map Prod.fst

/-- The client-side record parser inside NetworkManager.processStateUpdate:
reads identity, ten float32 patterns and the input u32 in order; the raw
input word is interpreted with the protocol's decodeInputState. -/
def decodePlayerRecord (b : List Nat) : Option ((Nat × NetPlayerState) × List Nat) := do
  let (id, b) ← readU16 b
  let (px, b) ← readU32 b
  let (py, b) ← readU32 b
  let (pz, b) ← readU32 b
  let (rx, b) ← readU32 b
  let (ry, b) ← readU32 b
  let (rz, b) ← readU32 b
  let (rw, b) ← readU32 b
  let (vx, b) ← readU32 b
  let (vy, b) ← readU32 b
  let (vz, b) ← readU32 b
  let (inp, b) ← readU32 b
  some ((id, ⟨(px, py, pz), (rx, ry, rz, rw), (vx, vy, vz), decodeInputState inp⟩), b)

/-- The client parse loop: count records read sequentially (the count is
computed from the byte length exactly as in processStateUpdate). -/
def decodePlayerRecords : Nat → List Nat → Option (List (Nat × NetPlayerState))
  | 0, _ => some []
  | n + 1, b => do
    let (e, rest) ← decodePlayerRecord b
    let tail ← decodePlayerRecords n rest
    some (e :: tail)

/-- NetworkManager.processStateUpdate together with the packet-type check in
the onmessage handler: parses the header, requires packet type 0x01, then
reads (byteLength - 8) / 46 records; returns the header timestamp and the
decoded entity list. -/
def processStateUpdate (b : List Nat) : Option (Nat × List (Nat × NetPlayerState)) := do
  let (_seq, b1) ← readU16 b
  let (ptype, b2) ← readU8 b1
  let (ts, b3) ← readU32 b2
  let (_flags, b4) ← readU8 b3
  if ptype = 1 then
    let recs ← decodePlayerRecords ((b.length - 8) / 46) b4
    some (ts, recs)
  else
    none

/-- A well-formed entity entry: the identity fits in a u16 and every float
pattern fits in a u32, which is exactly what the byte encoder can carry. -/
def ValidEntity (e : Nat × NetPlayerState) : Prop :=
  e.1 < 65536 ∧
  e.2.position.1 < 4294967296 ∧ e.2.position.2.1 < 4294967296 ∧
  e.2.position.2.2 < 4294967296 ∧
  e.2.rotation.1 < 4294967296 ∧ e.2.rotation.2.1 < 4294967296 ∧
  e.2.rotation.2.2.1 < 4294967296 ∧ e.2.rotation.2.2.2 < 4294967296 ∧
  e.2.velocity.1 < 4294967296 ∧ e.2.velocity.2.1 < 4294967296 ∧
  e.2.velocity.2.2 < 4294967296

instance (e : Nat × NetPlayerState) : Decidable (ValidEntity e) := by
  unfold ValidEntity
  infer_instance

/-- Zeroes the roll of an entity's input state: the part of an entity the
wire format does not carry. -/
def eraseRoll (e : Nat × NetPlayerState) : Nat × NetPlayerState :=
  (e.1, { e.2 with inputState := { e.2.inputState with roll := 0 } })

/-- A concrete entity whose input state has a nonzero roll. -/
def rollEntity : Nat × NetPlayerState :=
  (1, ⟨(0, 0, 0), (0, 0, 0, 0), (0, 0, 0), ⟨false, false, false, false, false, false, 1⟩⟩)

/-! ### Combat validator (handlePlayerHit in src/server/index.js; the
identical logic lives in src/server/game/CombatSystem.js) -/

/-- Authoritative per-player combat state: the fields of the player record
created on connection that handlePlayerHit reads or writes.  Position and
rotation components are integers because the only combat write is the fixed
respawn point. -/
structure CombatPlayer where
  position : Int × Int × Int
  rotation : Int × Int × Int × Int
  health : Int
  maxHealth : Int
  lastShotTime : Int
  shotCooldown : Int
deriving DecidableEq

/-- The slice of the server's mutable state that combat touches: the current
match id and the players map (an association list in insertion order, the
model of a JS Map). -/
structure GameServerState where
  currentMatchId : Option Nat
  players : List (Nat × CombatPlayer)
deriving DecidableEq

/-- players.get(id). -/
def findPlayer (id : Nat) : List (Nat × CombatPlayer) → Option CombatPlayer
  | [] => none
  | e :: tl => if e.1 = id then some e.2 else findPlayer id tl

/-- An in-place field mutation of the player object stored under a key, the
model of mutating the object returned by players.get(id). -/
def updatePlayer (id : Nat) (f : CombatPlayer → CombatPlayer)
    (l : List (Nat × CombatPlayer)) : List (Nat × CombatPlayer) :=
  l.map (fun e => if e.1 = id then (e.1, f e.2) else e)

/-- The combat broadcasts: the player-hit message and the
player-death/respawn message. -/
inductive GameEvent where
  | hit (attackerId victimId : Nat) (damage : Int) (victimHealth : Int)
  | death (victimId attackerId : Nat) (respawnPosition : Int × Int × Int)
deriving DecidableEq

def GameEvent.isDeath : GameEvent → Bool
  | .death _ _ _ => true
  | _ => false

/-- The attacker mutation on acceptance: attacker.lastShotTime = now. -/
def stampShot (now : Int) (p : CombatPlayer) : CombatPlayer :=
  { p with lastShotTime := now }

/-- The victim mutation on acceptance:
victim.health = Math.max(0, victim.health - damage). -/
def damageVictim (damage : Int) (p : CombatPlayer) : CombatPlayer :=
  { p with health := max 0 (p.health - damage) }

/-- The respawn applied when health reaches 0: health back to maxHealth,
position [0, 10, 0], rotation [0, 0, 0, 1]. -/
def respawnVictim (p : CombatPlayer) : CombatPlayer :=
  { p with
    health := p.maxHealth
    position := (0, 10, 0)
    rotation := (0, 0, 0, 1) }

/-- The players-map update shared by both accepted outcomes: stamp the
attacker, then floor-damage the victim. -/
def hitPlayers (now : Int) (attackerId victimId : Nat) (damage : Int)
    (l : List (Nat × CombatPlayer)) : List (Nat × CombatPlayer) :=
  updatePlayer victimId (damageVictim damage) (updatePlayer attackerId (stampShot now) l)

/-- handlePlayerHit (src/server/index.js): no-op without a current match or
a missing attacker or victim; rejects while the attacker's cooldown runs;
otherwise stamps the attacker's lastShotTime, floors the victim's health at
0 after subtracting damage, broadcasts a hit event, and on health 0 respawns
the victim and broadcasts one death event carrying the respawn position.
The returned list holds the broadcasts. -/
def handlePlayerHit (now : Int) (attackerId victimId : Nat) (damage : Int)
    (st : GameServerState) : GameServerState × List GameEvent :=
  match st.currentMatchId with
  | none => (st, [])
  | some _ =>
    match findPlayer attackerId st.players, findPlayer victimId st.players with
    | some attacker, some _ =>
      if now - attacker.lastShotTime < attacker.shotCooldown then
        (st, [])
      else
        let ps2 := hitPlayers now attackerId victimId damage st.players
        match findPlayer victimId ps2 with
        | none => ({ st with players := ps2 }, [])
        | some victim =>
          let hitEv := GameEvent.hit attackerId victimId damage victim.health
          if victim.health ≤ 0 then
            ({ st with players := updatePlayer victimId respawnVictim ps2 },
              [hitEv, GameEvent.death victimId attackerId (0, 10, 0)])
          else
            ({ st with players := ps2 }, [hitEv])
    | _, _ => (st, [])

/-- The hit branch of the message dispatcher (ws.on message, case 'hit', in
src/server/index.js; the same guard sits in
src/server/handlers/MessageHandler.js): the hit is forwarded only when the
victim id is truthy and differs from the sender's own id. -/
def handleHitMessage (now : Int) (senderId victimId : Nat) (damage : Int)
    (st : GameServerState) : GameServerState × List GameEvent :=
  if victimId ≠ 0 ∧ victimId ≠ senderId then
    handlePlayerHit now senderId victimId damage st
  else
    (st, [])

/-- A concrete attacker: full health, free cooldown (lastShotTime 0,
shotCooldown 500). -/
def atkP : CombatPlayer := ⟨(0, 0, 0), (0, 0, 0, 1), 100, 100, 0, 500⟩

/-- A concrete victim at health 10 of 100. -/
def vicP : CombatPlayer := ⟨(0, 0, 0), (0, 0, 0, 1), 10, 100, 0, 500⟩

/-- A combat state used as a concrete test input: a running match with
attacker 1 and victim 2. -/
def exCombatState : GameServerState := ⟨some 1, [(1, atkP), (2, vicP)]⟩

/-! ### Connection registry lifecycle (src/server/index.js)

The server keeps the players map and the activeConnections map, both keyed
by playerId.  Admission (wss.on connection) closes the new socket when the
identity is already present; an admitted connection is entered into both
maps.  The close handler removes the identity from both; every inbound
message refreshes lastActivity; checkInactiveUsers sweeps entries older than
the two-minute threshold.  A connection instance (the ws object) is modelled
by a numeric token. -/

/-- One activeConnections entry: the socket identity and its liveness
timestamp. -/
structure ConnInfo where
  token : Nat
  lastActivity : Int
deriving DecidableEq

/-- The identity-keyed registry slice of the server state: the key list of
the players map and the activeConnections map. -/
structure RegistryState where
  players : List Nat
  activeConnections : List (Nat × ConnInfo)
deriving DecidableEq

/-- Map.set: replace the entry under an existing key, otherwise append. -/
def mapSet (id : Nat) (c : ConnInfo) : List (Nat × ConnInfo) → List (Nat × ConnInfo)
  | [] => [(id, c)]
  | e :: tl => if e.1 = id then (id, c) :: tl else e :: mapSet id c tl

/-- Map.delete on the connection registry. -/
def mapDelete (id : Nat) (l : List (Nat × ConnInfo)) : List (Nat × ConnInfo) :=
  l.filter (fun e => e.1 != id)

/-- Map.delete on the players key list. -/
def listDelete (id : Nat) (l : List Nat) : List Nat :=
  l.filter (fun x => x != id)

/-- The admission path of wss.on connection: if players.has(playerId) the
new socket is sent an error and closed before any handler is registered, and
the state is untouched; otherwise the identity is entered into
activeConnections and players. -/
def connectStep (id tok : Nat) (now : Int) (st : RegistryState) : RegistryState :=
  if id ∈ st.players then
    st
  else
    { players := st.players ++ [id],
      activeConnections := mapSet id ⟨tok, now⟩ st.activeConnections }

/-- The ws close handler: both maps drop the identity. -/
def closeStep (id : Nat) (st : RegistryState) : RegistryState :=
  { players := listDelete id st.players,
    activeConnections := mapDelete id st.activeConnections }

/-- The inbound-message liveness refresh: lastActivity becomes now. -/
def touchStep (id : Nat) (now : Int) (st : RegistryState) : RegistryState :=
  { st with
    activeConnections := st.activeConnections.map
      (fun e => if e.1 = id then (e.1, ⟨e.2.token, now⟩) else e) }

/-- The INACTIVE_TIMEOUT threshold: 120000 ms. -/
def staleConn (now : Int) (e : Nat × ConnInfo) : Bool :=
  decide (120000 < now - e.2.lastActivity)

/-- checkInactiveUsers: every entry older than the threshold is dropped from
activeConnections and its identity is dropped from players. -/
def sweepStep (now : Int) (st : RegistryState) : RegistryState :=
  { players := st.players.filter
      (fun id => !(st.activeConnections.any (fun e => e.1 == id && staleConn now e))),
    activeConnections := st.activeConnections.filter (fun e => !(staleConn now e)) }

/-- The empty registry the server boots with. -/
def initRegistry : RegistryState := ⟨[], []⟩

/-- The registry states the server can be in: any sequence of admissions,
closes, liveness refreshes and inactivity sweeps from the empty registry. -/
inductive Reachable : RegistryState → Prop
  | init : Reachable initRegistry
  | connect (id tok : Nat) (now : Int) {st : RegistryState} :
      Reachable st → Reachable (connectStep id tok now st)
  | close (id : Nat) {st : RegistryState} :
      Reachable st → Reachable (closeStep id st)
  | touch (id : Nat) (now : Int) {st : RegistryState} :
      Reachable st → Reachable (touchStep id now st)
  | sweep (now : Int) {st : RegistryState} :
      Reachable st → Reachable (sweepStep now st)

/-- The number of registry entries held by one identity. -/
def entriesFor (id : Nat) (st : RegistryState) : Nat :=
  (st.activeConnections.filter (fun e => e.1 == id)).length

/-- The structural invariant of the registry: unique player keys, unique
connection keys, and the two maps keyed by the same identities. -/
def RegistryInv (st : RegistryState) : Prop :=
  st.players.Nodup ∧
  (st.activeConnections.map Prod.fst).Nodup ∧
  (∀ e ∈ st.activeConnections, e.1 ∈ st.players) ∧
  (∀ id ∈ st.players, id ∈ st.activeConnections.map Prod.fst)

/-! ### Per-connection input-sequence filter (src/unnamed/part_006,
ws.on message, INPUT packets) -/

/-- The per-player fields the INPUT handler touches. -/
structure InputPlayer where
  lastInputSequence : Nat
  inputState : Nat
deriving DecidableEq

/-- The INPUT branch of the message handler: the sample is applied only when
its sequence strictly exceeds the highest sequence already applied. -/
def applyInputPacket (p : InputPlayer) (sequence inputState : Nat) : InputPlayer :=
  if p.lastInputSequence < sequence then ⟨sequence, inputState⟩ else p

/-! ### Client-side reconciliation (src/client/network/NetworkManager.ts) -/

/-- One entry of the client's pending-input queue. -/
structure PendingInput where
  sequence : Nat
  inputState : Nat
  timestamp : Nat
deriving DecidableEq

/-- One buffered snapshot of the interpolation buffer. -/
structure Snapshot where
  timestamp : Nat
  state : List (Nat × NetPlayerState)
deriving DecidableEq

/-- The NetworkManager state reconcileStates reads and writes. -/
structure ClientState where
  pendingInputs : List PendingInput
  lastProcessedSequence : Nat
  interpolationBuffer : List Snapshot
deriving DecidableEq

/-- NetworkManager.reconcileStates: returns unchanged without a buffered
snapshot; otherwise walks every pending input whose sequence exceeds the
local lastProcessedSequence, setting lastProcessedSequence to each sequence
in turn, and finally drops every pending input not exceeding the updated
lastProcessedSequence. -/
def reconcileStates (st : ClientState) : ClientState :=
  match st.interpolationBuffer.getLast? with
  | none => st
  | some _ =>
    let unconfirmed := st.pendingInputs.filter
      (fun i => decide (st.lastProcessedSequence < i.sequence))
    let newLast := unconfirmed.foldl (fun _ i => i.sequence) st.lastProcessedSequence
    { st with
      lastProcessedSequence := newLast,
      pendingInputs := st.pendingInputs.filter (fun i => decide (newLast < i.sequence)) }

/-- The snapshot-buffer push at the top of processStateUpdate: append, then
drop the oldest entry when the ring of 3 overflows. -/
def pushSnapshot (snap : Snapshot) (st : ClientState) : ClientState :=
  let buf := st.interpolationBuffer ++ [snap]
  { st with interpolationBuffer := if 3 < buf.length then buf.tail else buf }

/-- A snapshot arrival as processStateUpdate performs it: buffer the
snapshot, then reconcile. -/
def onSnapshot (snap : Snapshot) (st : ClientState) : ClientState :=
  reconcileStates (pushSnapshot snap st)

/-- A concrete client state: last-processed sequence 1 with pending inputs
2 and 3. -/
def exClientState : ClientState :=
  ⟨[⟨2, 0, 0⟩, ⟨3, 0, 0⟩], 1, []⟩

/-- The scenario state: pending inputs with sequences 1, 2, 3 and nothing
processed yet. -/
def exClientState123 : ClientState :=
  ⟨[⟨1, 0, 0⟩, ⟨2, 0, 0⟩, ⟨3, 0, 0⟩], 0, []⟩

/-! ## Theorems -/

theorem readU16_writeU16 (n : Nat) (rest : List Nat) (h : n < 65536) :
    readU16 (writeU16 n ++ rest) = some (n, rest) := by
  simp only [writeU16, List.cons_append, List.nil_append, readU16,
    Option.some.injEq, Prod.mk.injEq, and_true]
  omega

theorem readU32_writeU32 (n : Nat) (rest : List Nat) (h : n < 4294967296) :
    readU32 (writeU32 n ++ rest) = some (n, rest) := by
  simp only [writeU32, List.cons_append, List.nil_append, readU32,
    Option.some.injEq, Prod.mk.injEq, and_true]
  omega

theorem encodeInputState_lt (s : InputState) : encodeInputState s < 4294967296 := by
  obtain ⟨f, b, l, r, u, d, ro⟩ := s
  show encodeInputState ⟨f, b, l, r, u, d, 0⟩ < 4294967296
  cases f <;> cases b <;> cases l <;> cases r <;> cases u <;> cases d <;> decide

theorem decodeInputState_encodeInputState (s : InputState) :
    decodeInputState (encodeInputState s) = { s with roll := 0 } := by
  obtain ⟨f, b, l, r, u, d, ro⟩ := s
  show decodeInputState (encodeInputState ⟨f, b, l, r, u, d, 0⟩) = ⟨f, b, l, r, u, d, 0⟩
  cases f <;> cases b <;> cases l <;> cases r <;> cases u <;> cases d <;> decide

theorem decodePlayerRecord_encodePlayerRecord (id : Nat) (p : NetPlayerState)
    (rest : List Nat) (h : ValidEntity (id, p)) :
    decodePlayerRecord (encodePlayerRecord id p ++ rest) =
      some (eraseRoll (id, p), rest) := by
  obtain ⟨⟨px, py, pz⟩, ⟨rx, ry, rz, rw4⟩, ⟨vx, vy, vz⟩, inp⟩ := p
  simp only [ValidEntity] at h
  obtain ⟨h1, h2, h3, h4, h5, h6, h7, h8, h9, h10, h11⟩ := h
  simp only [encodePlayerRecord, List.append_assoc]
  unfold decodePlayerRecord
  rw [readU16_writeU16 _ _ h1]
  dsimp only [Option.bind_eq_bind, Option.some_bind]
  rw [readU32_writeU32 _ _ h2]
  dsimp only [Option.bind_eq_bind, Option.some_bind]
  rw [readU32_writeU32 _ _ h3]
  dsimp only [Option.bind_eq_bind, Option.some_bind]
  rw [readU32_writeU32 _ _ h4]
  dsimp only [Option.bind_eq_bind, Option.some_bind]
  rw [readU32_writeU32 _ _ h5]
  dsimp only [Option.bind_eq_bind, Option.some_bind]
  rw [readU32_writeU32 _ _ h6]
  dsimp only [Option.bind_eq_bind, Option.some_bind]
  rw [readU32_writeU32 _ _ h7]
  dsimp only [Option.bind_eq_bind, Option.some_bind]
  rw [readU32_writeU32 _ _ h8]
  dsimp only [Option.bind_eq_bind, Option.some_bind]
  rw [readU32_writeU32 _ _ h9]
  dsimp only [Option.bind_eq_bind, Option.some_bind]
  rw [readU32_writeU32 _ _ h10]
  dsimp only [Option.bind_eq_bind, Option.some_bind]
  rw [readU32_writeU32 _ _ h11]
  dsimp only [Option.bind_eq_bind, Option.some_bind]
  rw [readU32_writeU32 _ _ (encodeInputState_lt inp)]
  dsimp only [Option.bind_eq_bind, Option.some_bind]
  simp [eraseRoll, decodeInputState_encodeInputState]

theorem length_encodePlayerRecord (id : Nat) (p : NetPlayerState) :
    (encodePlayerRecord id p).length = 46 := by
  simp [encodePlayerRecord, writeU16, writeU32]

theorem decodePlayerRecords_flatten (ps : List (Nat × NetPlayerState))
    (h : ∀ e ∈ ps, ValidEntity e) :
    decodePlayerRecords ps.length
        ((ps.map (fun e => encodePlayerRecord e.1 e.2)).flatten) =
      some (ps.map eraseRoll) := by
  induction ps with
  | nil => rfl
  | cons e tl ih =>
    simp only [List.map_cons, List.flatten_cons, List.length_cons, List.append_assoc]
    rw [decodePlayerRecords]
    rw [decodePlayerRecord_encodePlayerRecord e.1 e.2 _ (h e (List.mem_cons_self e tl))]
    dsimp only [Option.bind_eq_bind, Option.some_bind]
    rw [ih (fun x hx => h x (List.mem_cons_of_mem e hx))]
    rfl

theorem length_flatten_records (ps : List (Nat × NetPlayerState)) :
    ((ps.map (fun e => encodePlayerRecord e.1 e.2)).flatten).length = 46 * ps.length := by
  induction ps with
  | nil => rfl
  | cons e tl ih =>
    simp [length_encodePlayerRecord, ih, Nat.mul_succ, Nat.add_comm]

theorem processStateUpdate_createStateUpdateBuffer (now : Nat)
    (ps : List (Nat × NetPlayerState)) (h : ∀ e ∈ ps, ValidEntity e) :
    processStateUpdate (createStateUpdateBuffer now ps) =
      some (now % 4294967295, ps.map eraseRoll) := by
  have hts : now % 4294967295 < 4294967296 := by omega
  have hlen : (createStateUpdateBuffer now ps).length = 8 + 46 * ps.length := by
    simp only [createStateUpdateBuffer, List.append_assoc, List.length_append,
      length_flatten_records, writeU16, writeU32, List.length_cons, List.length_nil]
    omega
  have hcount : ((createStateUpdateBuffer now ps).length - 8) / 46 = ps.length := by
    rw [hlen]
    omega
  rw [processStateUpdate.eq_def, hcount]
  simp only [createStateUpdateBuffer, List.append_assoc, List.cons_append,
    List.nil_append]
  simp only [Option.bind_eq_bind, Option.some_bind, readU16_writeU16 0 _ (by omega),
    readU8, readU32_writeU32 _ _ hts, eq_self_iff_true, if_true,
    decodePlayerRecords_flatten ps h]

/-- The header-timestamp value of every produced state-update buffer:
always Date.now() reduced modulo 0xFFFFFFFF (which is 2^32 - 1). -/
theorem headerTimestamp_createStateUpdateBuffer (now : Nat)
    (ps : List (Nat × NetPlayerState)) :
    headerTimestamp (createStateUpdateBuffer now ps) = some (now % 4294967295) := by
  have hts : now % 4294967295 < 4294967296 := by omega
  have h16 : ∀ rest : List Nat, readU16 (writeU16 0 ++ rest) = some (0, rest) :=
    fun rest => readU16_writeU16 0 rest (by omega)
  simp only [createStateUpdateBuffer, List.append_assoc, List.cons_append,
    List.nil_append]
  unfold headerTimestamp
  rw [h16]
  dsimp only [readU8]
  rw [readU32_writeU32 _ _ hts]
  rfl

/-- C10: every STATE_UPDATE buffer produced by the broadcaster carries 0 in
the 2-byte header sequence field, for every tick time and every player set,
so the field can never order or deduplicate packets. -/
theorem claim10_sequence_always_zero (now : Nat) (ps : List (Nat × NetPlayerState)) :
    headerSequence (createStateUpdateBuffer now ps) = some 0 := by
  have h16 : ∀ rest : List Nat, readU16 (writeU16 0 ++ rest) = some (0, rest) :=
    fun rest => readU16_writeU16 0 rest (by omega)
  simp only [headerSequence, createStateUpdateBuffer, List.append_assoc,
    List.cons_append, List.nil_append, h16, Option.map_some']

/-- C9, counterexample: at Date.now() = 4294967295 the encoded timestamp
field holds 0, not 4294967295 = 4294967295 mod 2^32, because the source
reduces modulo 0xFFFFFFFF = 2^32 - 1 instead of modulo 2^32. -/
theorem claim9_timestamp_counterexample :
    headerTimestamp (createStateUpdateBuffer 4294967295 []) ≠
      some (4294967295 % 4294967296) := by decide

/-- C9, amended: for every encoded packet, the u32 serverTimestamp field of
the 8-byte header equals the server's current time reduced modulo
4294967295 (0xFFFFFFFF, that is 2^32 - 1), not modulo 2^32. -/
theorem claim9_timestamp_mod (now : Nat) (ps : List (Nat × NetPlayerState)) :
    headerTimestamp (createStateUpdateBuffer now ps) = some (now % 4294967295) :=
  headerTimestamp_createStateUpdateBuffer now ps

/-- C6, counterexample: decoding the encoding of a single-entity set whose
input state carries roll 1 does not return the set: the wire format never
carries roll, and the decoder substitutes roll 0. -/
theorem claim6_roundTrip_counterexample :
    (processStateUpdate (createStateUpdateBuffer 0 [rollEntity])).map Prod.snd ≠
      some [rollEntity] := by decide

/-- C6, amended: for every well-formed entity set, decoding the encoding
returns the set with identity, position, rotation, velocity and the six
directional input flags bit-exact, and the timestamp as encoded; only the
roll value of each inputState is not carried and decodes as 0. -/
theorem claim6_roundTrip_modulo_roll (now : Nat) (ps : List (Nat × NetPlayerState))
    (h : ∀ e ∈ ps, ValidEntity e) :
    processStateUpdate (createStateUpdateBuffer now ps) =
      some (now % 4294967295, ps.map eraseRoll) :=
  processStateUpdate_createStateUpdateBuffer now ps h

/-- C6, witness: the amended round trip evaluated on the concrete roll-1
entity set. -/
theorem claim6_roundTrip_modulo_roll_witness :
    processStateUpdate (createStateUpdateBuffer 0 [rollEntity]) =
      some (0 % 4294967295, [rollEntity].map eraseRoll) :=
  claim6_roundTrip_modulo_roll 0 [rollEntity] (by decide)

/-! ### Combat validator theorems -/

theorem findPlayer_updatePlayer_self (id : Nat) (f : CombatPlayer → CombatPlayer)
    (l : List (Nat × CombatPlayer)) :
    findPlayer id (updatePlayer id f l) = (findPlayer id l).map f := by
  induction l with
  | nil => rfl
  | cons e tl ih =>
    by_cases he : e.1 = id
    · simp [updatePlayer, findPlayer, he] at ih ⊢
    · simp [updatePlayer, findPlayer, he] at ih ⊢
      exact ih

theorem findPlayer_updatePlayer_ne (id idB : Nat) (f : CombatPlayer → CombatPlayer)
    (l : List (Nat × CombatPlayer)) (h : id ≠ idB) :
    findPlayer id (updatePlayer idB f l) = findPlayer id l := by
  have hBA : ¬ (idB = id) := fun hh => h hh.symm
  induction l with
  | nil => rfl
  | cons e tl ih =>
    by_cases he : e.1 = idB
    · simp [updatePlayer, findPlayer, he, hBA] at ih ⊢
      exact ih
    · by_cases he2 : e.1 = id
      · simp [updatePlayer, findPlayer, he, he2, h]
      · simp [updatePlayer, findPlayer, he, he2] at ih ⊢
        exact ih

/-- The accepted branch of handlePlayerHit written out: the attacker is
stamped, the victim's health floors at 0 after subtracting damage, and the
lethal case additionally respawns the victim and appends exactly one death
event after the hit event. -/
theorem handlePlayerHit_accept_eq (now : Int) (attackerId victimId : Nat)
    (damage : Int) (st : GameServerState) (m : Nat) (a v : CombatPlayer)
    (hm : st.currentMatchId = some m)
    (ha : findPlayer attackerId st.players = some a)
    (hv : findPlayer victimId st.players = some v)
    (hne : attackerId ≠ victimId)
    (hcd : a.shotCooldown ≤ now - a.lastShotTime) :
    handlePlayerHit now attackerId victimId damage st =
      (if max 0 (v.health - damage) ≤ 0 then
        ({ st with players := updatePlayer victimId respawnVictim (hitPlayers now attackerId victimId damage st.players) },
         [GameEvent.hit attackerId victimId damage (max 0 (v.health - damage)),
          GameEvent.death victimId attackerId (0, 10, 0)])
      else
        ({ st with players := hitPlayers now attackerId victimId damage st.players },
         [GameEvent.hit attackerId victimId damage (max 0 (v.health - damage))])) := by
  have hcd2 : ¬ (now - a.lastShotTime < a.shotCooldown) := by omega
  have hv1 : findPlayer victimId
      (updatePlayer attackerId (stampShot now) st.players) = some v := by
    rw [findPlayer_updatePlayer_ne _ _ _ _ (Ne.symm hne), hv]
  have hv2 : findPlayer victimId (hitPlayers now attackerId victimId damage st.players) =
      some (damageVictim damage v) := by
    unfold hitPlayers
    rw [findPlayer_updatePlayer_self, hv1]
    rfl
  unfold handlePlayerHit
  rw [hm, ha, hv]
  dsimp only
  rw [if_neg hcd2]
  rw [hv2]
  rfl

theorem findPlayer_hitPlayers_attacker (now : Int) (attackerId victimId : Nat)
    (damage : Int) (l : List (Nat × CombatPlayer)) (a : CombatPlayer)
    (ha : findPlayer attackerId l = some a) (hne : attackerId ≠ victimId) :
    findPlayer attackerId (hitPlayers now attackerId victimId damage l) =
      some (stampShot now a) := by
  unfold hitPlayers
  rw [findPlayer_updatePlayer_ne _ _ _ _ hne, findPlayer_updatePlayer_self, ha]
  rfl

theorem findPlayer_hitPlayers_victim (now : Int) (attackerId victimId : Nat)
    (damage : Int) (l : List (Nat × CombatPlayer)) (v : CombatPlayer)
    (hv : findPlayer victimId l = some v) (hne : attackerId ≠ victimId) :
    findPlayer victimId (hitPlayers now attackerId victimId damage l) =
      some (damageVictim damage v) := by
  unfold hitPlayers
  rw [findPlayer_updatePlayer_self, findPlayer_updatePlayer_ne _ _ _ _ (Ne.symm hne), hv]
  rfl

/-- C3, counterexample: a call that drives the victim to 0 refutes the
claimed postcondition health = max(0, health - damage).  With the victim at
health 10 and damage 20, the accepted hit leaves health 100 (maxHealth after
the respawn), not max(0, 10 - 20) = 0. -/
theorem claim3_counterexample :
    (findPlayer 2 (handlePlayerHit 1000 1 2 20 exCombatState).1.players).map
        (fun p => p.health) = some 100 ∧
    (100 : Int) ≠ max 0 (10 - 20) := by decide

/-- C3, amended: with a running match and both players present, a call
inside the attacker's cooldown window is rejected with no mutation; an
accepted call stamps the attacker's lastShotTime with now and sets the
victim's health to max(0, health - damage) unless that is 0, in which case
the victim respawns at health maxHealth; and a second call 100 ms later
(inside a cooldown longer than 100 ms) is rejected with no mutation, so the
pair reduces the victim's health exactly once. -/
theorem claim3_cooldown (now : Int) (attackerId victimId : Nat) (damage : Int)
    (st : GameServerState) (m : Nat) (a v : CombatPlayer)
    (hm : st.currentMatchId = some m)
    (ha : findPlayer attackerId st.players = some a)
    (hv : findPlayer victimId st.players = some v)
    (hne : attackerId ≠ victimId) :
    (now - a.lastShotTime < a.shotCooldown →
      handlePlayerHit now attackerId victimId damage st = (st, [])) ∧
    (a.shotCooldown ≤ now - a.lastShotTime →
      ((findPlayer attackerId
          (handlePlayerHit now attackerId victimId damage st).1.players).map
          (fun p => p.lastShotTime) = some now ∧
       (findPlayer victimId
          (handlePlayerHit now attackerId victimId damage st).1.players).map
          (fun p => p.health) =
         some (if v.health - damage ≤ 0 then v.maxHealth else v.health - damage) ∧
       (100 < a.shotCooldown →
         handlePlayerHit (now + 100) attackerId victimId damage
            (handlePlayerHit now attackerId victimId damage st).1 =
          ((handlePlayerHit now attackerId victimId damage st).1, [])))) := by
  constructor
  · intro hcd
    unfold handlePlayerHit
    rw [hm, ha, hv]
    dsimp only
    rw [if_pos hcd]
  · intro hcd
    rw [handlePlayerHit_accept_eq now attackerId victimId damage st m a v hm ha hv hne hcd]
    by_cases hl : max 0 (v.health - damage) ≤ 0
    · have hl2 : v.health - damage ≤ 0 := by omega
      rw [if_pos hl]
      refine ⟨?_, ?_, ?_⟩
      · dsimp only
        rw [findPlayer_updatePlayer_ne _ _ _ _ hne,
          findPlayer_hitPlayers_attacker now attackerId victimId damage st.players a ha hne]
        rfl
      · dsimp only
        rw [findPlayer_updatePlayer_self,
          findPlayer_hitPlayers_victim now attackerId victimId damage st.players v hv hne]
        simp [respawnVictim, damageVictim, hl2]
      · intro h100
        unfold handlePlayerHit
        dsimp only
        rw [hm]
        rw [findPlayer_updatePlayer_ne _ _ _ _ hne,
          findPlayer_hitPlayers_attacker now attackerId victimId damage st.players a ha hne]
        rw [findPlayer_updatePlayer_self,
          findPlayer_hitPlayers_victim now attackerId victimId damage st.players v hv hne]
        have hcc : now + 100 - (stampShot now a).lastShotTime < (stampShot now a).shotCooldown := by
          dsimp [stampShot]
          omega
        dsimp only [Option.map_some']
        rw [if_pos hcc]
    · have hl2 : ¬ (v.health - damage ≤ 0) := by omega
      rw [if_neg hl]
      refine ⟨?_, ?_, ?_⟩
      · dsimp only
        rw [findPlayer_hitPlayers_attacker now attackerId victimId damage st.players a ha hne]
        rfl
      · dsimp only
        rw [findPlayer_hitPlayers_victim now attackerId victimId damage st.players v hv hne]
        simp [damageVictim, hl2]
        omega
      · intro h100
        unfold handlePlayerHit
        dsimp only
        rw [hm]
        rw [findPlayer_hitPlayers_attacker now attackerId victimId damage st.players a ha hne]
        rw [findPlayer_hitPlayers_victim now attackerId victimId damage st.players v hv hne]
        have hcc : now + 100 - (stampShot now a).lastShotTime < (stampShot now a).shotCooldown := by
          dsimp [stampShot]
          omega
        dsimp only
        rw [if_pos hcc]

/-- C3, witness: the amended cooldown contract evaluated on the concrete
match state with attacker 1 (cooldown 500 ms, last shot at 0) hitting
victim 2 (health 10) for damage 20 at time 1000. -/
theorem claim3_cooldown_witness :
    (1000 - atkP.lastShotTime < atkP.shotCooldown →
      handlePlayerHit 1000 1 2 20 exCombatState = (exCombatState, [])) ∧
    (atkP.shotCooldown ≤ 1000 - atkP.lastShotTime →
      ((findPlayer 1 (handlePlayerHit 1000 1 2 20 exCombatState).1.players).map
          (fun p => p.lastShotTime) = some 1000 ∧
       (findPlayer 2 (handlePlayerHit 1000 1 2 20 exCombatState).1.players).map
          (fun p => p.health) =
         some (if vicP.health - 20 ≤ 0 then vicP.maxHealth else vicP.health - 20) ∧
       (100 < atkP.shotCooldown →
         handlePlayerHit (1000 + 100) 1 2 20
            (handlePlayerHit 1000 1 2 20 exCombatState).1 =
          ((handlePlayerHit 1000 1 2 20 exCombatState).1, [])))) :=
  claim3_cooldown 1000 1 2 20 exCombatState 1 atkP vicP rfl rfl rfl (by decide)

/-- C4: a hit message in which the sender names itself as the victim is
dropped by the dispatcher guard: the state is unchanged (in particular the
victim's health and the attacker's lastShotTime) and nothing is broadcast. -/
theorem claim4_self_hit_rejected (now : Int) (senderId : Nat) (damage : Int)
    (st : GameServerState) :
    handleHitMessage now senderId senderId damage st = (st, []) := by
  unfold handleHitMessage
  rw [if_neg]
  intro h
  exact h.2 rfl

/-- C5: an accepted hit that drives the victim's health to 0 leaves the
victim respawned (health = maxHealth, position (0,10,0), rotation
(0,0,0,1)) and the broadcast list holds exactly one death event. -/
theorem claim5_death_respawn (now : Int) (attackerId victimId : Nat) (damage : Int)
    (st : GameServerState) (m : Nat) (a v : CombatPlayer)
    (hm : st.currentMatchId = some m)
    (ha : findPlayer attackerId st.players = some a)
    (hv : findPlayer victimId st.players = some v)
    (hne : attackerId ≠ victimId)
    (hcd : a.shotCooldown ≤ now - a.lastShotTime)
    (hl : v.health - damage ≤ 0) :
    findPlayer victimId (handlePlayerHit now attackerId victimId damage st).1.players =
      some (respawnVictim v) ∧
    (handlePlayerHit now attackerId victimId damage st).2.filter GameEvent.isDeath =
      [GameEvent.death victimId attackerId (0, 10, 0)] := by
  rw [handlePlayerHit_accept_eq now attackerId victimId damage st m a v hm ha hv hne hcd]
  have hl0 : max 0 (v.health - damage) ≤ 0 := by omega
  rw [if_pos hl0]
  constructor
  · dsimp only
    rw [findPlayer_updatePlayer_self,
      findPlayer_hitPlayers_victim now attackerId victimId damage st.players v hv hne]
    rfl
  · rfl

/-- C5, witness: driving victim 2 from health 10 to 0 with one damage-20
hit yields the respawned victim and the single death event. -/
theorem claim5_death_respawn_witness :
    findPlayer 2 (handlePlayerHit 1000 1 2 20 exCombatState).1.players =
      some (respawnVictim vicP) ∧
    (handlePlayerHit 1000 1 2 20 exCombatState).2.filter GameEvent.isDeath =
      [GameEvent.death 2 1 (0, 10, 0)] :=
  claim5_death_respawn 1000 1 2 20 exCombatState 1 atkP vicP rfl rfl rfl
    (by decide) (by decide) (by decide)

/-! ### Connection registry theorems -/

theorem mem_keys_mapSet (id : Nat) (c : ConnInfo) (l : List (Nat × ConnInfo))
    (k : Nat) :
    k ∈ (mapSet id c l).map Prod.fst ↔ k ∈ l.map Prod.fst ∨ k = id := by
  induction l with
  | nil => simp [mapSet]
  | cons e tl ih =>
    by_cases he : e.1 = id
    · simp [mapSet, he]
      tauto
    · simp [mapSet, he, ih]
      tauto

theorem mapSet_of_not_mem_keys (id : Nat) (c : ConnInfo) (l : List (Nat × ConnInfo))
    (h : ¬ id ∈ l.map Prod.fst) :
    mapSet id c l = l ++ [(id, c)] := by
  induction l with
  | nil => rfl
  | cons e tl ih =>
    simp only [List.map_cons, List.mem_cons] at h
    push_neg at h
    have he : ¬ (e.1 = id) := fun hh => h.1 hh.symm
    simp [mapSet, he, ih h.2]

theorem nodup_keys_mapSet (id : Nat) (c : ConnInfo) (l : List (Nat × ConnInfo))
    (h : (l.map Prod.fst).Nodup) : ((mapSet id c l).map Prod.fst).Nodup := by
  induction l with
  | nil => simp [mapSet]
  | cons e tl ih =>
    simp only [List.map_cons, List.nodup_cons] at h
    by_cases he : e.1 = id
    · simp only [mapSet]
      rw [if_pos he]
      simp only [List.map_cons, List.nodup_cons]
      exact ⟨he ▸ h.1, h.2⟩
    · simp only [mapSet]
      rw [if_neg he]
      simp only [List.map_cons, List.nodup_cons]
      refine ⟨?_, ih h.2⟩
      rw [mem_keys_mapSet]
      push_neg
      exact ⟨h.1, he⟩

theorem keys_touch (id : Nat) (now : Int) (l : List (Nat × ConnInfo)) :
    ((l.map (fun e => if e.1 = id then (e.1, (⟨e.2.token, now⟩ : ConnInfo)) else e)).map
      Prod.fst) = l.map Prod.fst := by
  induction l with
  | nil => rfl
  | cons e tl ih =>
    by_cases he : e.1 = id
    · simp [he, ih]
    · simp [he, ih]

theorem eq_of_mem_keys_nodup (l : List (Nat × ConnInfo))
    (h : (l.map Prod.fst).Nodup) (x y : Nat × ConnInfo)
    (hx : x ∈ l) (hy : y ∈ l) (hxy : x.1 = y.1) : x = y := by
  induction l with
  | nil => cases hx
  | cons e tl ih =>
    simp only [List.map_cons, List.nodup_cons] at h
    rcases List.mem_cons.mp hx with rfl | hx2
    · rcases List.mem_cons.mp hy with rfl | hy2
      · rfl
      · exact absurd (hxy ▸ List.mem_map_of_mem Prod.fst hy2) h.1
    · rcases List.mem_cons.mp hy with rfl | hy2
      · exact absurd (hxy ▸ List.mem_map_of_mem Prod.fst hx2) h.1
      · exact ih h.2 hx2 hy2

/-- The structural invariant holds in every reachable registry state. -/
theorem reachable_registryInv (st : RegistryState) (h : Reachable st) :
    RegistryInv st := by
  induction h with
  | init =>
    refine ⟨List.nodup_nil, List.nodup_nil, ?_, ?_⟩ <;> simp [initRegistry]
  | connect id tok now h ih =>
    obtain ⟨hp, hk, hsub, hcov⟩ := ih
    rename_i st0
    unfold connectStep
    by_cases hid : id ∈ st0.players
    · rw [if_pos hid]
      exact ⟨hp, hk, hsub, hcov⟩
    · rw [if_neg hid]
      have hnid : ¬ id ∈ st0.activeConnections.map Prod.fst := by
        intro hmem
        obtain ⟨x, hx, hx1⟩ := List.mem_map.mp hmem
        exact hid (hx1 ▸ hsub x hx)
      refine ⟨?_, ?_, ?_, ?_⟩
      · rw [List.nodup_append]
        refine ⟨hp, List.nodup_singleton id, ?_⟩
        intro a ha hamem
        rw [List.mem_singleton] at hamem
        exact hid (hamem ▸ ha)
      · exact nodup_keys_mapSet id ⟨tok, now⟩ st0.activeConnections hk
      · intro e he
        rw [mapSet_of_not_mem_keys _ _ _ hnid] at he
        rcases List.mem_append.mp he with h1 | h1
        · exact List.mem_append_left _ (hsub e h1)
        · rw [List.mem_singleton] at h1
          subst h1
          exact List.mem_append_right _ (List.mem_singleton_self id)
      · intro k hkmem
        rw [mem_keys_mapSet]
        rcases List.mem_append.mp hkmem with h1 | h1
        · exact Or.inl (hcov k h1)
        · rw [List.mem_singleton] at h1
          exact Or.inr h1
  | close id h ih =>
    obtain ⟨hp, hk, hsub, hcov⟩ := ih
    rename_i st0
    refine ⟨hp.filter _, ?_, ?_, ?_⟩
    · exact hk.sublist (List.Sublist.map Prod.fst (List.filter_sublist _))
    · intro e he
      unfold closeStep mapDelete at he
      dsimp only at he
      rw [List.mem_filter] at he
      unfold closeStep listDelete
      dsimp only
      rw [List.mem_filter]
      exact ⟨hsub e he.1, he.2⟩
    · intro k hkmem
      unfold closeStep listDelete at hkmem
      dsimp only at hkmem
      rw [List.mem_filter] at hkmem
      obtain ⟨x, hx, hx1⟩ := List.mem_map.mp (hcov k hkmem.1)
      unfold closeStep mapDelete
      dsimp only
      refine List.mem_map.mpr ⟨x, List.mem_filter.mpr ⟨hx, ?_⟩, hx1⟩
      rw [hx1]
      exact hkmem.2
  | touch id now h ih =>
    obtain ⟨hp, hk, hsub, hcov⟩ := ih
    rename_i st0
    refine ⟨hp, ?_, ?_, ?_⟩
    · unfold touchStep
      dsimp only
      rw [keys_touch]
      exact hk
    · intro e he
      unfold touchStep at he
      dsimp only at he
      obtain ⟨x, hx, hxe⟩ := List.mem_map.mp he
      have hfst : e.1 = x.1 := by
        subst hxe
        by_cases hxid : x.1 = id <;> simp [hxid]
      rw [hfst]
      exact hsub x hx
    · intro k hkmem
      unfold touchStep
      dsimp only
      rw [keys_touch]
      exact hcov k hkmem
  | sweep now h ih =>
    obtain ⟨hp, hk, hsub, hcov⟩ := ih
    rename_i st0
    refine ⟨hp.filter _, ?_, ?_, ?_⟩
    · exact hk.sublist (List.Sublist.map Prod.fst (List.filter_sublist _))
    · intro e he
      unfold sweepStep at he
      dsimp only at he
      rw [List.mem_filter] at he
      obtain ⟨he1, he2⟩ := he
      unfold sweepStep
      dsimp only
      rw [List.mem_filter]
      refine ⟨hsub e he1, ?_⟩
      rw [Bool.not_eq_true', List.any_eq_false]
      intro x hx hcontra
      rw [Bool.and_eq_true, beq_iff_eq] at hcontra
      have hx_eq : x = e :=
        eq_of_mem_keys_nodup st0.activeConnections hk x e hx he1 hcontra.1
      subst hx_eq
      rw [Bool.not_eq_true'] at he2
      rw [he2] at hcontra
      exact Bool.false_ne_true hcontra.2
    · intro k hkmem
      unfold sweepStep at hkmem
      dsimp only at hkmem
      rw [List.mem_filter] at hkmem
      obtain ⟨hk1, hk2⟩ := hkmem
      rw [Bool.not_eq_true', List.any_eq_false] at hk2
      obtain ⟨x, hx, hx1⟩ := List.mem_map.mp (hcov k hk1)
      unfold sweepStep
      dsimp only
      refine List.mem_map.mpr ⟨x, List.mem_filter.mpr ⟨hx, ?_⟩, hx1⟩
      have hQ := hk2 x hx
      rw [Bool.not_eq_true']
      cases hstale : staleConn now x
      · rfl
      · exact absurd (by rw [Bool.and_eq_true, beq_iff_eq]; exact ⟨hx1, hstale⟩) hQ

theorem entriesFor_le_one_of_nodup (l : List (Nat × ConnInfo)) (k : Nat)
    (h : (l.map Prod.fst).Nodup) : (l.filter (fun e => e.1 == k)).length ≤ 1 := by
  induction l with
  | nil => simp
  | cons e tl ih =>
    simp only [List.map_cons, List.nodup_cons] at h
    by_cases he : e.1 = k
    · have htl : tl.filter (fun e => e.1 == k) = [] := by
        rw [List.filter_eq_nil_iff]
        intro x hx hc
        rw [beq_iff_eq] at hc
        exact h.1 ((he ▸ hc : x.1 = e.1) ▸ List.mem_map_of_mem Prod.fst hx)
      simp [List.filter_cons, he, htl]
    · simp only [List.filter_cons, beq_iff_eq, he, if_false, decide_eq_true_eq]
      exact ih h.2

theorem one_le_entriesFor_of_mem (l : List (Nat × ConnInfo)) (k : Nat)
    (h : k ∈ l.map Prod.fst) :
    1 ≤ (l.filter (fun e => e.1 == k)).length := by
  obtain ⟨x, hx, hx1⟩ := List.mem_map.mp h
  have hmem : x ∈ l.filter (fun e => e.1 == k) :=
    List.mem_filter.mpr ⟨hx, by simp [hx1]⟩
  exact List.length_pos.mpr (List.ne_nil_of_mem hmem)

theorem mem_players_connectStep (id tok : Nat) (now : Int) (st : RegistryState) :
    id ∈ (connectStep id tok now st).players := by
  unfold connectStep
  by_cases hid : id ∈ st.players
  · rw [if_pos hid]
    exact hid
  · rw [if_neg hid]
    exact List.mem_append_right _ (List.mem_singleton_self id)

/-- C1: in every reachable registry state every identity holds at most one
entry in the active-connections registry, and after two connection attempts
for the same identity complete, exactly one connection is registered for
that identity. -/
theorem claim1_at_most_one_active (st : RegistryState) (id tok1 tok2 : Nat)
    (now1 now2 : Int) (h : Reachable st) :
    (∀ k : Nat, entriesFor k st ≤ 1) ∧
    entriesFor id (connectStep id tok2 now2 (connectStep id tok1 now1 st)) = 1 := by
  constructor
  · intro k
    exact entriesFor_le_one_of_nodup _ _ (reachable_registryInv st h).2.1
  · have h2 : Reachable (connectStep id tok2 now2 (connectStep id tok1 now1 st)) :=
      Reachable.connect id tok2 now2 (Reachable.connect id tok1 now1 h)
    have hinv := reachable_registryInv _ h2
    have hmem : id ∈ (connectStep id tok2 now2 (connectStep id tok1 now1 st)).players :=
      mem_players_connectStep id tok2 now2 _
    have hkeys := hinv.2.2.2 id hmem
    have hge := one_le_entriesFor_of_mem _ id hkeys
    have hle := entriesFor_le_one_of_nodup _ id hinv.2.1
    unfold entriesFor
    omega

/-- C1, witness: two admissions for identity 1 from the empty registry leave
exactly one registered connection. -/
theorem claim1_at_most_one_active_witness :
    entriesFor 1 (connectStep 1 20 1 (connectStep 1 10 0 initRegistry)) = 1 :=
  (claim1_at_most_one_active initRegistry 1 10 20 0 1 Reachable.init).2

/-- C2, counterexample: when identity 7 with connection token 1 is already
registered, a second attempt with token 2 changes nothing: no registry entry
is removed, no takeover replaces the entry, and the surviving token is the
old token 1, not the newer 2 — the admission path closes the new socket
instead. -/
theorem claim2_counterexample :
    connectStep 7 2 1 (connectStep 7 1 0 initRegistry) =
      connectStep 7 1 0 initRegistry ∧
    (connectStep 7 1 0 initRegistry).activeConnections = [(7, ⟨1, 0⟩)] ∧
    (1 : Nat) ≠ 2 := by decide

/-- C2, amended: whenever a connection attempt arrives for an identity that
already has an active connection, the admission procedure rejects the new
connection (the new socket is sent an error and closed) and leaves the
registry unchanged, so the older connection remains the active one; the
takeover-notice flow exists only as commented-out code. -/
theorem claim2_duplicate_rejected (id tok : Nat) (now : Int) (st : RegistryState)
    (h : id ∈ st.players) :
    connectStep id tok now st = st := by
  unfold connectStep
  rw [if_pos h]

/-- C2, witness: the second admission for identity 1 leaves the registry
state of the first admission untouched. -/
theorem claim2_duplicate_rejected_witness :
    connectStep 1 20 1 (connectStep 1 10 0 initRegistry) =
      connectStep 1 10 0 initRegistry :=
  claim2_duplicate_rejected 1 20 1 (connectStep 1 10 0 initRegistry) (by decide)

/-! ### Input-sequence filter theorems -/

/-- C7: an input sample whose sequence does not exceed the highest sequence
already applied for the connection is discarded without changing state, and
after submitting sequences 5 then 3 the player state reflects only the
sequence-5 sample. -/
theorem claim7_monotonic_sequence (p : InputPlayer) (seq inp : Nat)
    (h : seq ≤ p.lastInputSequence) (i0 a b : Nat) :
    applyInputPacket p seq inp = p ∧
    applyInputPacket (applyInputPacket ⟨0, i0⟩ 5 a) 3 b = ⟨5, a⟩ := by
  constructor
  · unfold applyInputPacket
    rw [if_neg (by omega)]
  · rfl

/-- C7, witness: a sequence-3 sample against a connection already at
sequence 5 is dropped, and the 5-then-3 run keeps the sequence-5 input. -/
theorem claim7_monotonic_sequence_witness :
    applyInputPacket ⟨5, 9⟩ 3 7 = ⟨5, 9⟩ ∧
    applyInputPacket (applyInputPacket ⟨0, 1⟩ 5 2) 3 3 = ⟨5, 2⟩ :=
  claim7_monotonic_sequence ⟨5, 9⟩ 3 7 (by decide) 1 2 3

/-! ### Client reconciliation theorems -/

theorem foldl_seq_eq_or_mem (l : List PendingInput) (a : Nat) :
    l.foldl (fun _ i => i.sequence) a = a ∨
      ∃ i ∈ l, l.foldl (fun _ i => i.sequence) a = i.sequence := by
  induction l generalizing a with
  | nil => exact Or.inl rfl
  | cons x tl ih =>
    rcases ih x.sequence with h | ⟨i, hi, he⟩
    · right
      exact ⟨x, List.mem_cons_self x tl, by rw [List.foldl_cons]; exact h⟩
    · right
      exact ⟨i, List.mem_cons_of_mem x hi, by rw [List.foldl_cons]; exact he⟩

theorem mem_seq_le_foldl (l : List PendingInput) (a : Nat)
    (hs : l.Pairwise (fun i j => i.sequence < j.sequence)) :
    ∀ i ∈ l, i.sequence ≤ l.foldl (fun _ j => j.sequence) a := by
  induction l generalizing a with
  | nil => intro i hi; cases hi
  | cons x tl ih =>
    intro i hi
    rw [List.pairwise_cons] at hs
    rw [List.foldl_cons]
    rcases List.mem_cons.mp hi with rfl | hmem
    · rcases foldl_seq_eq_or_mem tl i.sequence with h | ⟨j, hj, he⟩
      · rw [h]
      · rw [he]
        exact le_of_lt (hs.1 j hj)
    · exact ih x.sequence hs.2 i hmem

/-- Every call of reconcileStates with a buffered snapshot and an
ascending pending queue empties the pending queue. -/
theorem reconcileStates_clears (st : ClientState)
    (hs : st.pendingInputs.Pairwise (fun i j => i.sequence < j.sequence))
    (hb : st.interpolationBuffer ≠ []) :
    (reconcileStates st).pendingInputs = [] := by
  unfold reconcileStates
  cases hgl : st.interpolationBuffer.getLast? with
  | none =>
    exact absurd (List.getLast?_eq_none_iff.mp hgl) hb
  | some snap =>
    dsimp only
    rw [List.filter_eq_nil_iff]
    intro i hi hc
    rw [decide_eq_true_eq] at hc
    have hsf : (st.pendingInputs.filter
        (fun i => decide (st.lastProcessedSequence < i.sequence))).Pairwise
        (fun i j => i.sequence < j.sequence) := hs.sublist (List.filter_sublist _)
    by_cases hgt : st.lastProcessedSequence < i.sequence
    · have hmem : i ∈ st.pendingInputs.filter
          (fun i => decide (st.lastProcessedSequence < i.sequence)) :=
        List.mem_filter.mpr ⟨hi, by rw [decide_eq_true_eq]; exact hgt⟩
      exact absurd hc (by
        have := mem_seq_le_foldl _ st.lastProcessedSequence hsf i hmem
        omega)
    · have hlow : st.lastProcessedSequence ≤
          (st.pendingInputs.filter
            (fun i => decide (st.lastProcessedSequence < i.sequence))).foldl
            (fun _ j => j.sequence) st.lastProcessedSequence := by
        rcases foldl_seq_eq_or_mem
            (st.pendingInputs.filter
              (fun i => decide (st.lastProcessedSequence < i.sequence)))
            st.lastProcessedSequence with h | ⟨j, hj, he⟩
        · rw [h]
        · rw [he]
          have := (List.mem_filter.mp hj).2
          rw [decide_eq_true_eq] at this
          omega
      omega

/-- C8, counterexample: with the client's last-processed sequence S = 1 and
pending inputs 2 and 3 (both with sequence greater than S), the claim says
reconciliation removes exactly the inputs with sequence ≤ S, so both should
survive; the code instead empties the whole pending queue on snapshot
arrival (there is no server acknowledgment in the protocol at all). -/
theorem claim8_counterexample :
    (onSnapshot ⟨100, []⟩ exClientState).pendingInputs = [] ∧
    exClientState.pendingInputs.filter
        (fun i => decide (exClientState.lastProcessedSequence < i.sequence)) =
      exClientState.pendingInputs ∧
    exClientState.pendingInputs ≠ [] := by decide

/-- C8, amended: on every snapshot arrival the client replays the pending
inputs whose sequence exceeds its own locally tracked last-processed
sequence, advances that counter to the last replayed sequence, and then
removes every pending input not exceeding the counter; since sendInput
appends pending inputs in strictly increasing sequence order, every pending
input is removed on every snapshot arrival — no server-acknowledged
sequence is involved.  In particular with pending sequences 1, 2, 3 zero
pending inputs remain. -/
theorem claim8_all_pending_cleared (st : ClientState) (snap : Snapshot)
    (hs : st.pendingInputs.Pairwise (fun i j => i.sequence < j.sequence)) :
    (onSnapshot snap st).pendingInputs = [] := by
  unfold onSnapshot
  refine reconcileStates_clears (pushSnapshot snap st) hs ?_
  unfold pushSnapshot
  dsimp only
  by_cases hlen : 3 < (st.interpolationBuffer ++ [snap]).length
  · rw [if_pos hlen]
    have hlt : 0 < (st.interpolationBuffer ++ [snap]).tail.length := by
      rw [List.length_tail]
      omega
    exact List.ne_nil_of_length_pos hlt
  · rw [if_neg hlen]
    intro hnil
    have := congrArg List.length hnil
    rw [List.length_append] at this
    simp at this

/-- C8, witness: the scenario with pending sequences 1, 2, 3 leaves zero
pending inputs after the snapshot arrives. -/
theorem claim8_all_pending_cleared_witness :
    (onSnapshot ⟨100, []⟩ exClientState123).pendingInputs = [] :=
  claim8_all_pending_cleared exClientState123 ⟨100, []⟩ (by decide)

end Dogfight
